import Mathlib

/-!
Shallow embedding of the optimal-measurement repository
(src/bivariate/utils.py, src/utils/dataset.py, src/inverse/lnopt.py).

Conventions of the embedding:
* Machine floats are modelled by exact rationals `ℚ`.
* A batch tensor of shape `(N, d₁, …, dₖ)` is a `List (List ℚ)`: `N` samples,
  each a flat list of `d₁ * ⋯ * dₖ` elements.
* Randomness is an oracle (`Entropy`): `randint i lo hi` is the result of the
  i-th call to `random.randint(lo, hi)` (its documented contract, that the
  result lies in `[lo, hi]`, appears as a hypothesis), and `gauss i j` is the
  standard-normal draw used for element `j` of sample `i`; a Gaussian draw of
  standard deviation `σ` is `σ * gauss i j`.
* Third-party library calls (`cv2.resize`, SSIM, PSNR, the autodiff backend)
  are opaque parameters, constrained only by their documented shape contracts.
* Python float division, which raises `ZeroDivisionError` on a zero
  denominator, is `pydiv` with values in `Except String ℚ`.
-/

namespace OptMeas

/-! ### Tensor model -/

abbrev Tensor := List (List ℚ)

/-- Element-wise addition of two batch tensors (torch `+`). -/
def tAdd (a b : Tensor) : Tensor :=
  List.zipWith (List.zipWith (· + ·)) a b

/-- Element-wise subtraction of two batch tensors (torch `-`). -/
def tSub (a b : Tensor) : Tensor :=
  List.zipWith (List.zipWith (· - ·)) a b

/-- Multiplication of a batch tensor by a scalar. -/
def tSmul (c : ℚ) (a : Tensor) : Tensor :=
  a.map (fun r => r.map (fun x => c * x))

/-- torch.zeros_like. -/
def zeros_like (a : Tensor) : Tensor :=
  a.map (fun r => r.map (fun _ => (0 : ℚ)))

/-- Total number of elements of a batch tensor (torch `numel`). -/
def numel (a : Tensor) : ℕ :=
  (a.map List.length).sum

/-- Sum of squared element-wise differences:
`nn.MSELoss(reduction='sum')`, the constant called `MSE` in lnopt.py. -/
def MSE (a b : Tensor) : ℚ :=
  (List.zipWith (fun ra rb => (List.zipWith (fun x y => (x - y) ^ 2) ra rb).sum) a b).sum

/-- Mean of squared element-wise differences: `nn.MSELoss()` with the default
mean reduction, the `criterion` of bivariate/utils.py. -/
def criterion (a b : Tensor) : ℚ :=
  MSE a b / (numel a : ℚ)

/-- Two tensors have the same shape in the flattened model: same number of
samples and the same number of elements in corresponding samples. -/
def sameShape (a b : Tensor) : Prop :=
  a.map List.length = b.map List.length

/-! ### Noise Sampler (bivariate/utils.py, `sample_noise`) -/

/-- Oracle for the process-wide random source. `randint i lo hi` is the value
returned by the i-th call to `random.randint(lo, hi)`; `gauss i j` is the
standard-normal draw behind element `j` of sample `i` in `torch.normal`. -/
structure Entropy where
  randint : ℕ → ℤ → ℤ → ℤ
  gauss : ℕ → ℕ → ℚ

/-- Standard deviation used for one sample: the integer draw divided by 255,
squared when `pow_noise` is set (lines 27–31 of bivariate/utils.py). -/
def noiseSd (pow_noise : Bool) (draw : ℤ) : ℚ :=
  let sd : ℚ := (draw : ℚ) / 255
  if pow_noise then sd ^ 2 else sd

/-- Embedding of `sample_noise(size, noise_level, pow_noise)`. The result has
`size[0]` samples; sample `i` draws its own `noise_sd` from the i-th
`random.randint` call and fills its `(size[1:]).prod` elements with Gaussian
draws of that standard deviation. -/
def sample_noise (size : List ℕ) (noise_level : ℤ × ℤ) (pow_noise : Bool)
    (ent : Entropy) : Tensor :=
  (List.range (size.headD 0)).map (fun i =>
    let sd := noiseSd pow_noise (ent.randint i noise_level.1 noise_level.2)
    (List.range ((size.drop 1).prod)).map (fun j => sd * ent.gauss i j))

/-! ### Patch Sampler (utils/dataset.py, `sample_patch`) -/

/-- An image: height, width, channel count, and a pixel accessor. -/
structure Image where
  h : ℕ
  w : ℕ
  c : ℕ
  px : ℕ → ℕ → ℕ → ℚ

/-- A materialised patch: rows × columns × channels of pixel values. -/
abbrev Patch := List (List (List ℚ))

/-- python `range(start, stop, step)` for a positive step. -/
def pyrange (start stop step : ℕ) : List ℕ :=
  (List.range ((stop - start + step - 1) / step)).map (fun k => start + k * step)

/-- The numpy slice `resized[x:x+ph, y:y+pw, :]`. -/
def crop (img : Image) (x y ph pw : ℕ) : Patch :=
  (List.range ph).map (fun i =>
    (List.range pw).map (fun j =>
      (List.range img.c).map (fun k => img.px (x + i) (y + j) k)))

/-- Embedding of `sample_patch(image, scales, patch_size)`. `cv2.resize` is a
third-party call, passed as the parameter `resize`, where `resize img W H`
resizes `img` to target width `W` and height `H`; the dims handed to
`cv2.resize` are `(int(shape[1]*scale), int(shape[0]*scale))`, and python
`int` truncation is `⌊·⌋.toNat` for the non-negative scales used here. -/
def sample_patch (resize : Image → ℕ → ℕ → Image) (image : Image)
    (scales : List ℚ) (patch_size : ℕ × ℕ) : List Patch :=
  scales.flatMap (fun scale =>
    let resized := resize image (⌊(image.w : ℚ) * scale⌋).toNat (⌊(image.h : ℚ) * scale⌋).toNat
    let ih := resized.h
    let iw := resized.w
    let ph := patch_size.1
    let pw := patch_size.2
    if ph ≤ ih ∧ pw ≤ iw then
      (pyrange 0 (ih - ph + 1) ph).flatMap (fun x =>
        (pyrange 0 (iw - pw + 1) pw).map (fun y => crop resized x y ph pw))
    else [])

/-- The shape contract of `cv2.resize(img, (W, H))`: the result has height
`H`, width `W` and the channel count of the input. -/
def resizeSpec (resize : Image → ℕ → ℕ → Image) : Prop :=
  ∀ img W H, (resize img W H).h = H ∧ (resize img W H).w = W ∧ (resize img W H).c = img.c

/-- A concrete nearest-neighbour resize obeying the shape contract, used to
instantiate witnesses. -/
def nearestResize (img : Image) (W H : ℕ) : Image :=
  ⟨H, W, img.c, fun i j k => img.px (i * img.h / H) (j * img.w / W) k⟩

/-- Number of patches one scale contributes to `sample_patch` for an `h × w`
image: with resized dims `ih = ⌊h·s⌋`, `iw = ⌊w·s⌋`, it is `⌊ih/ph⌋·⌊iw/pw⌋`
full patches when the resized image holds at least one patch, else none. -/
def scaleCount (h w : ℕ) (s : ℚ) (ph pw : ℕ) : ℕ :=
  let ih := (⌊(h : ℚ) * s⌋).toNat
  let iw := (⌊(w : ℚ) * s⌋).toNat
  if ph ≤ ih ∧ pw ≤ iw then (ih / ph) * (iw / pw) else 0

/-- Explicit scale-major, then row-major form of the patch list one scale
contributes: row index `r` and column index `cc` enumerate the full
`ph × pw` blocks of the resized image in order. -/
def scalePatches (resize : Image → ℕ → ℕ → Image) (image : Image) (s : ℚ)
    (ph pw : ℕ) : List Patch :=
  let iw := (⌊(image.w : ℚ) * s⌋).toNat
  let ih := (⌊(image.h : ℚ) * s⌋).toNat
  let resized := resize image iw ih
  if ph ≤ ih ∧ pw ≤ iw then
    (List.range (ih / ph)).flatMap (fun r =>
      (List.range (iw / pw)).map (fun cc => crop resized (r * ph) (cc * pw) ph pw))
  else []

/-! ### Dataset construction (utils/dataset.py, `ISLVRC.__init__`) -/

/-- A decoded file as produced by `plt.imread`: a numpy array given by its
shape and a pixel accessor (meaningful when the array is 3-dimensional, with
`shape = [height, width, channels]`). -/
structure NpArray where
  shape : List ℕ
  px : ℕ → ℕ → ℕ → ℚ

/-- Embedding of `ISLVRC.to_float` in the default `linear = False` branch:
divide every pixel by 255. -/
def to_float (a : NpArray) : Image :=
  ⟨a.shape.getD 0 0, a.shape.getD 1 0, a.shape.getD 2 0, fun i j k => a.px i j k / 255⟩

/-- Mean intensity of a materialised patch (`numpy.mean`: total sum divided
by total element count). -/
def patchMean (p : Patch) : ℚ :=
  ((p.map (fun row => (row.map List.sum).sum)).sum)
    / (((p.map (fun row => (row.map (fun cell => (cell.length : ℚ))).sum)).sum))

/-- Embedding of the training half of `ISLVRC.__init__`: a decoded file is
processed only when `len(image.shape) == 3`; its patches are sampled at
`args.scales` and `args.patch_size`, and a patch is appended when
`sample.mean() >= 0.05`. -/
def islvrc_train_patches (resize : Image → ℕ → ℕ → Image) (files : List NpArray)
    (scales : List ℚ) (patch_size : ℕ × ℕ) : List Patch :=
  files.flatMap (fun a =>
    if a.shape.length = 3 then
      (sample_patch resize (to_float a) scales patch_size).filter
        (fun s => decide ((1 / 20 : ℚ) ≤ patchMean s))
    else [])

/-- Embedding of the test half of `ISLVRC.__init__`: fixed `test_scale = [0.5]`
and `test_size = (128, 128)`, with no brightness filter. -/
def islvrc_test_patches (resize : Image → ℕ → ℕ → Image) (files : List NpArray) :
    List Patch :=
  files.flatMap (fun a =>
    if a.shape.length = 3 then
      sample_patch resize (to_float a) [1 / 2] (128, 128)
    else [])

/-! ### Averaging Evaluator (inverse/lnopt.py, `denoiser_avg`) -/

/-- Embedding of `denoiser_avg(test_torch, solver, n_avg)`. The stochastic
solver is an oracle indexed by call number — its k-th invocation is
`solver k` — and the third-party SSIM and PSNR metrics are the opaque
parameters `ssim` and `psnrF`, applied in the argument orders of the source
(`SSIM(recon, test)`, `psnr(test, recon)`). Returns the tuple
`(mse_val, ssim_val, psnr_val, recon)`. -/
def denoiser_avg (test_torch : Tensor) (solver : ℕ → Tensor → Tensor)
    (ssim psnrF : Tensor → Tensor → ℚ) (n_avg : ℕ) : ℚ × ℚ × ℚ × Tensor :=
  let image_sum := (List.range n_avg).foldl
    (fun acc k => tAdd acc (solver k test_torch)) (zeros_like test_torch)
  let recon := tSmul (1 / (n_avg : ℚ)) image_sum
  let mse_val := MSE test_torch recon / (test_torch.length : ℚ)
  (mse_val, ssim recon test_torch, psnrF test_torch recon, recon)

/-! ### Denoising Trainer (bivariate/utils.py, `train_simple`) -/

/-- The fields of the `Args` dataclass that govern the observable behaviour
of `train_simple`: noise range, fixed test noise level, epoch count and the
pow_noise flag. Batch size, learning rate and decay act only through the
opaque loader and optimizer. -/
structure Args where
  train_noise : ℤ × ℤ
  test_noise : ℤ
  n_epoch : ℕ
  pow_noise : Bool

/-- Opaque autodiff backend over a model-plus-optimizer state `M`:
`forward m x` is the model applied to `x`; `step m x t` is the state after
`zero_grad`, the MSE backward pass against target `t` and one SGD step on
the pair `(x, t)`; `sched m` is the state after `scheduler.step()`. -/
structure Backend (M : Type) where
  forward : M → Tensor → Tensor
  step : M → Tensor → Tensor → M
  sched : M → M

/-- The inner batch loop of `train_simple`: threads the model state,
accumulates `total_loss`, and counts the processed batches (the python
`enumerate` variable `count` ends at one less than this count). Per batch:
fresh noise from `sample_noise` at the batch's shape, noisy input, forward
pass, loss `criterion(residual, noise)`, backward and optimizer step. -/
def trainFold {M : Type} (be : Backend M) (args : Args) (ent : ℕ → Entropy)
    (batches : List Tensor) (m0 : M) : M × ℚ × ℕ :=
  batches.foldl
    (fun acc b =>
      let noise := sample_noise [b.length, (b.headD []).length]
        args.train_noise args.pow_noise (ent acc.2.2)
      let noise_input := tAdd b noise
      let loss := criterion (be.forward acc.1 noise_input) noise
      (be.step acc.1 noise_input noise, acc.2.1 + loss, acc.2.2 + 1))
    (m0, 0, 0)

/-- Per-epoch record of `train_simple`: the appended average training loss
and the evaluation quantities `test_in` / `test_out` (printed when verbose;
`test_out` is also appended to the returned test losses). -/
structure EpochRec where
  avg : ℚ
  testIn : ℚ
  testOut : ℚ

/-- The evaluation phase of one epoch: one noisy test batch at the fixed
level `args.test_noise / 255` (the scaled standard-normal tensor `g`), the
residual from the model with no gradient tracking, the denoised batch
`noisy − residual`, and the pair `(test_in, test_out)` of reported errors. -/
def evalPhase {M : Type} (be : Backend M) (args : Args) (test_set : Tensor)
    (g : Tensor) (m : M) : ℚ × ℚ :=
  let test_noise := tAdd test_set (tSmul ((args.test_noise : ℚ) / 255) g)
  let residual := be.forward m test_noise
  let test_denoise := tSub test_noise residual
  (criterion test_set test_noise, criterion test_set test_denoise)

/-- One epoch of `train_simple` acting on `(model, records)`: train over the
epoch's batches, advance the scheduler, evaluate, and append the epoch
record with average loss `total_loss / float(count + 1)`. -/
def simpleEpoch {M : Type} (be : Backend M) (args : Args)
    (batches : ℕ → List Tensor) (ent : ℕ → ℕ → Entropy) (testGauss : ℕ → Tensor)
    (test_set : Tensor) : M × List EpochRec → ℕ → M × List EpochRec :=
  fun acc e =>
    let tr := trainFold be args (ent e) (batches e) acc.1
    let m1 := be.sched tr.1
    let ev := evalPhase be args test_set (testGauss e) m1
    (m1, acc.2 ++ [⟨tr.2.1 / (tr.2.2 : ℚ), ev.1, ev.2⟩])

/-- State of `train_simple` after `n` epochs. -/
def simpleRun {M : Type} (be : Backend M) (args : Args) (batches : ℕ → List Tensor)
    (ent : ℕ → ℕ → Entropy) (testGauss : ℕ → Tensor) (test_set : Tensor)
    (m0 : M) (n : ℕ) : M × List EpochRec :=
  (List.range n).foldl (simpleEpoch be args batches ent testGauss test_set) (m0, [])

/-- Record produced by epoch `e` of `train_simple` as a function of the model
state `m` entering the epoch: the average loss `total_loss / (count + 1)` and
the evaluation pair computed at the post-scheduler state. -/
def epochRecAt {M : Type} (be : Backend M) (args : Args) (batches : ℕ → List Tensor)
    (ent : ℕ → ℕ → Entropy) (tg : ℕ → Tensor) (ts : Tensor) (m : M) (e : ℕ) : EpochRec :=
  ⟨(trainFold be args (ent e) (batches e) m).2.1
      / ((trainFold be args (ent e) (batches e) m).2.2 : ℚ),
   (evalPhase be args ts (tg e) (be.sched (trainFold be args (ent e) (batches e) m).1)).1,
   (evalPhase be args ts (tg e) (be.sched (trainFold be args (ent e) (batches e) m).1)).2⟩

/-- Embedding of `train_simple`: runs `args.n_epoch` epochs and returns the
pair `(epoch_loss, test_loss)` of per-epoch training losses and per-epoch
test losses. -/
def train_simple {M : Type} (be : Backend M) (args : Args) (batches : ℕ → List Tensor)
    (ent : ℕ → ℕ → Entropy) (testGauss : ℕ → Tensor) (test_set : Tensor)
    (m0 : M) : List ℚ × List ℚ :=
  let r := simpleRun be args batches ent testGauss test_set m0 args.n_epoch
  (r.2.map EpochRec.avg, r.2.map EpochRec.testOut)

/-! ### Linear-Inverse Trainer (inverse/lnopt.py, `ln_optim`) -/

/-- Python float division: raises `ZeroDivisionError` on a zero denominator. -/
def pydiv (a b : ℚ) : Except String ℚ :=
  if b = 0 then Except.error "ZeroDivisionError" else Except.ok (a / b)

/-- The inner batch loop of `ln_optim` over an opaque solver state `S`: per
batch, permute to channel-first (`pv` rearranges each sample's flattened
elements), reconstruct, take an optimizer step, append
`error.item() / batch.shape[0]` to `batch_loss` and accumulate `total_loss`
and the processed count. -/
def lnFold {S : Type} (recon : S → Tensor → Tensor) (optStep : S → Tensor → Tensor → S)
    (lossF : Tensor → Tensor → ℚ) (pv : List ℚ → List ℚ)
    (batches : List Tensor) (s0 : S) : S × List ℚ × ℚ × ℕ :=
  batches.foldl
    (fun acc b0 =>
      let b := b0.map pv
      let rc := recon acc.1 b
      let lv := lossF b rc / (b.length : ℚ)
      (optStep acc.1 b rc, acc.2.1 ++ [lv], acc.2.2.1 + lv, acc.2.2.2 + 1))
    (s0, [], 0, 0)

/-- One epoch of `ln_optim`: the batch loop followed by the epoch average
`total_loss / float(count)`, `count` being the post-loop value of the
`enumerate` variable — one less than the number of processed batches. With
no batch at all the source raises `NameError` (`count` is unbound). -/
def lnEpoch {S : Type} (recon : S → Tensor → Tensor) (optStep : S → Tensor → Tensor → S)
    (lossF : Tensor → Tensor → ℚ) (pv : List ℚ → List ℚ)
    (batches : List Tensor) (s0 : S) : S × List ℚ × Except String ℚ :=
  let r := lnFold recon optStep lossF pv batches s0
  (r.1, r.2.1,
    if r.2.2.2 = 0 then Except.error "NameError"
    else pydiv r.2.2.1 ((r.2.2.2 : ℚ) - 1))

/-- Embedding of `ln_optim`: `n_epoch` epochs; each epoch runs the batch
loop, computes the epoch average (an uncaught exception there aborts
training), appends it to `epoch_loss`, advances the scheduler, and evaluates
on the test set through `denoiser_avg` with the default `n_avg = 5`. Returns
the trained solver state with the recorded epoch losses. -/
def ln_optim {S : Type} (recon : S → Tensor → Tensor) (optStep : S → Tensor → Tensor → S)
    (lossF : Tensor → Tensor → ℚ) (pv : List ℚ → List ℚ) (schedStep : S → S)
    (solverEval : S → ℕ → Tensor → Tensor) (ssim psnrF : Tensor → Tensor → ℚ)
    (test : Tensor) (batches : ℕ → List Tensor) (n_epoch : ℕ) (s0 : S) :
    Except String (S × List ℚ) :=
  (List.range n_epoch).foldl
    (fun acc e =>
      acc.bind (fun st =>
        let ep := lnEpoch recon optStep lossF pv (batches e) st.1
        ep.2.2.bind (fun avg =>
          let s1 := schedStep ep.1
          let _metrics := denoiser_avg test (solverEval s1) ssim psnrF 5
          Except.ok (s1, st.2 ++ [avg]))))
    (Except.ok (s0, []))

/-! ### Helper lemmas -/

lemma sum_map_const {α : Type} (l : List α) (c : ℕ) :
    (l.map (fun _ => c)).sum = l.length * c := by
  induction l with
  | nil => simp
  | cons a t ih => simp [ih, Nat.succ_mul, Nat.add_comm]

lemma sum_map_constQ {α : Type} (l : List α) (c : ℚ) :
    (l.map (fun _ => c)).sum = (l.length : ℚ) * c := by
  induction l with
  | nil => simp
  | cons a t ih =>
    simp [ih]
    ring

lemma pyrange_tile (n p : ℕ) (hp : 1 ≤ p) (hn : p ≤ n) :
    pyrange 0 (n - p + 1) p = (List.range (n / p)).map (fun k => k * p) := by
  have hnum : n - p + 1 - 0 + p - 1 = n := by omega
  simp only [pyrange, hnum, Nat.zero_add]

theorem nearestResize_spec : resizeSpec nearestResize :=
  fun _ _ _ => ⟨rfl, rfl, rfl⟩

lemma sample_patch_eq_scalePatches (resize : Image → ℕ → ℕ → Image)
    (hres : resizeSpec resize) (image : Image) (scales : List ℚ) (ph pw : ℕ)
    (hph : 1 ≤ ph) (hpw : 1 ≤ pw) :
    sample_patch resize image scales (ph, pw)
      = scales.flatMap (fun s => scalePatches resize image s ph pw) := by
  simp only [sample_patch, scalePatches]
  congr 1
  funext s
  obtain ⟨hh, hw, _⟩ :=
    hres image (⌊(image.w : ℚ) * s⌋).toNat (⌊(image.h : ℚ) * s⌋).toNat
  rw [hh, hw]
  by_cases hcond : ph ≤ (⌊(image.h : ℚ) * s⌋).toNat ∧ pw ≤ (⌊(image.w : ℚ) * s⌋).toNat
  · rw [if_pos hcond, if_pos hcond, pyrange_tile _ _ hph hcond.1,
      pyrange_tile _ _ hpw hcond.2, List.flatMap_map]
    congr 1
    funext r
    rw [List.map_map]
    rfl
  · rw [if_neg hcond, if_neg hcond]

lemma scalePatches_length (resize : Image → ℕ → ℕ → Image) (image : Image)
    (s : ℚ) (ph pw : ℕ) :
    (scalePatches resize image s ph pw).length = scaleCount image.h image.w s ph pw := by
  simp only [scalePatches, scaleCount]
  by_cases hcond : ph ≤ (⌊(image.h : ℚ) * s⌋).toNat ∧ pw ≤ (⌊(image.w : ℚ) * s⌋).toNat
  · rw [if_pos hcond, if_pos hcond, List.length_flatMap]
    simp only [Function.comp_def, List.length_map, List.length_range]
    rw [sum_map_const, List.length_range]
  · rw [if_neg hcond, if_neg hcond]
    rfl

lemma crop_shape (img : Image) (x y ph pw : ℕ) :
    (crop img x y ph pw).length = ph ∧
    ∀ row ∈ crop img x y ph pw, row.length = pw ∧ ∀ cell ∈ row, cell.length = img.c := by
  refine ⟨by simp [crop], ?_⟩
  intro row hrow
  simp only [crop, List.mem_map, List.mem_range] at hrow
  obtain ⟨i, _, rfl⟩ := hrow
  refine ⟨by simp, ?_⟩
  intro cell hcell
  simp only [List.mem_map, List.mem_range] at hcell
  obtain ⟨j, _, rfl⟩ := hcell
  simp

lemma mem_scalePatches {resize : Image → ℕ → ℕ → Image} {image : Image}
    {s : ℚ} {ph pw : ℕ} {p : Patch}
    (hp : p ∈ scalePatches resize image s ph pw) :
    ∃ x y, p = crop (resize image (⌊(image.w : ℚ) * s⌋).toNat
      (⌊(image.h : ℚ) * s⌋).toNat) x y ph pw := by
  simp only [scalePatches] at hp
  split at hp
  · simp only [List.mem_flatMap, List.mem_map, List.mem_range] at hp
    obtain ⟨r, _, cc, _, rfl⟩ := hp
    exact ⟨_, _, rfl⟩
  · exact absurd hp (List.not_mem_nil _)

lemma sample_patch_2x2 (img : Image) (hh : img.h = 2) (hw : img.w = 2) :
    sample_patch nearestResize img [1] (2, 2) = [crop (nearestResize img 2 2) 0 0 2 2] := by
  simp [sample_patch, pyrange, nearestResize, hh, hw]
  rw [List.range_succ, List.range_zero]
  simp [Function.comp]

lemma patchMean_const (img : Image) (v : ℚ) (hpx : ∀ i j k, img.px i j k = v)
    (x y ph pw : ℕ) (hph : 1 ≤ ph) (hpw : 1 ≤ pw) (hc : 1 ≤ img.c) :
    patchMean (crop img x y ph pw) = v := by
  have hph0 : ((ph : ℚ)) ≠ 0 := by exact_mod_cast Nat.one_le_iff_ne_zero.mp hph
  have hpw0 : ((pw : ℚ)) ≠ 0 := by exact_mod_cast Nat.one_le_iff_ne_zero.mp hpw
  have hc0 : ((img.c : ℚ)) ≠ 0 := by exact_mod_cast Nat.one_le_iff_ne_zero.mp hc
  simp only [patchMean, crop, List.map_map, Function.comp_def, hpx, List.length_map,
    List.length_range, sum_map_constQ]
  field_simp
  ring

lemma zipAdd_getD (r s : List ℚ) (h : r.length = s.length) (j : ℕ) :
    (List.zipWith (· + ·) r s).getD j 0 = r.getD j 0 + s.getD j 0 := by
  induction r generalizing s j with
  | nil =>
    cases s with
    | nil => simp
    | cons y ys => simp at h
  | cons x xs ih =>
    cases s with
    | nil => simp at h
    | cons y ys =>
      cases j with
      | zero => simp
      | succ j => simpa using ih ys (by simpa using h) j

lemma zipAdd_zeros_row (r s : List ℚ) (h : s.length = r.length) :
    List.zipWith (· + ·) (r.map (fun _ => (0 : ℚ))) s = s := by
  induction r generalizing s with
  | nil =>
    cases s with
    | nil => rfl
    | cons y ys => simp at h
  | cons x xs ih =>
    cases s with
    | nil => simp at h
    | cons y ys =>
      simp only [List.map_cons, List.zipWith_cons_cons, zero_add]
      rw [ih ys (by simpa using h)]

lemma rowZero_getD (r : List ℚ) (j : ℕ) :
    (r.map (fun _ => (0 : ℚ))).getD j 0 = 0 := by
  induction r generalizing j with
  | nil => simp
  | cons x xs ih =>
    cases j with
    | zero => simp
    | succ j => simp [ih j]

lemma rowSmul_getD (c : ℚ) (r : List ℚ) (j : ℕ) :
    (r.map (fun x => c * x)).getD j 0 = c * r.getD j 0 := by
  induction r generalizing j with
  | nil => simp
  | cons x xs ih =>
    cases j with
    | zero => simp
    | succ j => simpa using ih j

lemma tAdd_getD (a : Tensor) : ∀ (b : Tensor), sameShape a b → ∀ i j : ℕ,
    ((tAdd a b).getD i []).getD j 0 = (a.getD i []).getD j 0 + (b.getD i []).getD j 0 := by
  induction a with
  | nil =>
    intro b hs i j
    cases b with
    | nil => simp [tAdd]
    | cons r2 t2 => simp [sameShape] at hs
  | cons r t ih =>
    intro b hs i j
    cases b with
    | nil => simp [sameShape] at hs
    | cons r2 t2 =>
      simp only [sameShape, List.map_cons, List.cons.injEq] at hs
      cases i with
      | zero => simpa [tAdd] using zipAdd_getD r r2 hs.1 j
      | succ i => simpa [tAdd] using ih t2 hs.2 i j

lemma tAdd_zeros (t : Tensor) : ∀ (s : Tensor), sameShape s t → tAdd (zeros_like t) s = s := by
  induction t with
  | nil =>
    intro s hs
    cases s with
    | nil => rfl
    | cons r2 t2 => simp [sameShape] at hs
  | cons r m ih =>
    intro s hs
    cases s with
    | nil => simp [sameShape] at hs
    | cons r2 m2 =>
      simp only [sameShape, List.map_cons, List.cons.injEq] at hs
      simp only [tAdd, zeros_like, List.map_cons, List.zipWith_cons_cons]
      rw [zipAdd_zeros_row r r2 hs.1]
      have := ih m2 hs.2
      simp only [tAdd, zeros_like] at this
      rw [this]

lemma tSmul_getD (c : ℚ) (a : Tensor) (i j : ℕ) :
    ((tSmul c a).getD i []).getD j 0 = c * (a.getD i []).getD j 0 := by
  induction a generalizing i with
  | nil => simp [tSmul]
  | cons r t ih =>
    cases i with
    | zero => simpa [tSmul] using rowSmul_getD c r j
    | succ i => simpa [tSmul] using ih i

lemma tSmul_one (a : Tensor) : tSmul 1 a = a := by
  simp only [tSmul, one_mul]
  simp

lemma zeros_like_getD (t : Tensor) (i j : ℕ) :
    ((zeros_like t).getD i []).getD j 0 = 0 := by
  induction t generalizing i with
  | nil => simp [zeros_like]
  | cons r s ih =>
    cases i with
    | zero =>
      simp only [zeros_like, List.map_cons, List.getD_cons_zero]
      exact rowZero_getD r j
    | succ i => simp only [zeros_like, List.map_cons, List.getD_cons_succ] at ih ⊢
                exact ih i

lemma zeros_like_shape (t : Tensor) : sameShape (zeros_like t) t := by
  simp [sameShape, zeros_like]

lemma tAdd_shape (a : Tensor) : ∀ (b : Tensor), sameShape a b → sameShape (tAdd a b) a := by
  induction a with
  | nil =>
    intro b _
    cases b <;> simp [tAdd, sameShape]
  | cons r t ih =>
    intro b hs
    cases b with
    | nil => simp [sameShape] at hs
    | cons r2 t2 =>
      simp only [sameShape, List.map_cons, List.cons.injEq] at hs
      have htail := ih t2 hs.2
      simp only [tAdd, List.zipWith_cons_cons, sameShape, List.map_cons, List.cons.injEq]
      exact ⟨by rw [List.length_zipWith, hs.1, Nat.min_self], htail⟩

lemma foldl_tAdd_spec (t : Tensor) (f : ℕ → Tensor) (hf : ∀ k, sameShape (f k) t) (n : ℕ) :
    sameShape ((List.range n).foldl (fun acc k => tAdd acc (f k)) (zeros_like t)) t ∧
    ∀ i j : ℕ,
      (((List.range n).foldl (fun acc k => tAdd acc (f k)) (zeros_like t)).getD i []).getD j 0
        = ((List.range n).map (fun k => ((f k).getD i []).getD j 0)).sum := by
  induction n with
  | zero =>
    refine ⟨zeros_like_shape t, ?_⟩
    intro i j
    simpa using zeros_like_getD t i j
  | succ n ih =>
    have hfold : (List.range (n + 1)).foldl (fun acc k => tAdd acc (f k)) (zeros_like t)
        = tAdd ((List.range n).foldl (fun acc k => tAdd acc (f k)) (zeros_like t)) (f n) := by
      rw [List.range_succ, List.foldl_append, List.foldl_cons, List.foldl_nil]
    have hacc : sameShape ((List.range n).foldl (fun acc k => tAdd acc (f k)) (zeros_like t))
        (f n) := ih.1.trans (hf n).symm
    refine ⟨?_, ?_⟩
    · rw [hfold]
      exact (tAdd_shape _ _ hacc).trans ih.1
    · intro i j
      rw [hfold, tAdd_getD _ _ hacc i j, ih.2 i j, List.range_succ, List.map_append,
        List.sum_append]
      simp

/-! ### Theorems for the Noise Sampler -/

/-- C1: for every target shape with `size[0] = N ≥ 1` and every integer
noise-level range `[lo, hi]` (with `random.randint`'s contract that each call
returns a value in `[lo, hi]`), `sample_noise` returns a tensor of exactly the
requested shape; sample `i` uses one standard deviation obtained from the
i-th `randint` draw `vᵢ ∈ [lo, hi]` — one σ per sample, never one per batch —
equal to `(vᵢ/255)²` when `pow_noise` holds and to `vᵢ/255` otherwise, and
element `j` of sample `i` is the zero-mean Gaussian draw of that standard
deviation, `σᵢ * gauss i j`. -/
theorem sample_noise_spec (size : List ℕ) (lo hi : ℤ) (pw : Bool) (ent : Entropy)
    (_hN : 1 ≤ size.headD 0)
    (hrand : ∀ i, lo ≤ ent.randint i lo hi ∧ ent.randint i lo hi ≤ hi) :
    (sample_noise size (lo, hi) pw ent).length = size.headD 0 ∧
    (∀ s ∈ sample_noise size (lo, hi) pw ent, s.length = (size.drop 1).prod) ∧
    (∀ i, i < size.headD 0 →
      lo ≤ ent.randint i lo hi ∧ ent.randint i lo hi ≤ hi ∧
      noiseSd pw (ent.randint i lo hi)
        = (if pw then ((ent.randint i lo hi : ℚ) / 255) ^ 2
           else (ent.randint i lo hi : ℚ) / 255) ∧
      ∀ j, j < (size.drop 1).prod →
        ((sample_noise size (lo, hi) pw ent).getD i []).getD j 0
          = noiseSd pw (ent.randint i lo hi) * ent.gauss i j) := by
  refine ⟨by simp [sample_noise], ?_, ?_⟩
  · intro s hs
    simp only [sample_noise, List.mem_map, List.mem_range] at hs
    obtain ⟨i, hi', rfl⟩ := hs
    simp
  · intro i hiN
    refine ⟨(hrand i).1, (hrand i).2, by simp [noiseSd], ?_⟩
    intro j hj
    have hlen : i < (sample_noise size (lo, hi) pw ent).length := by
      simpa [sample_noise] using hiN
    rw [List.getD_eq_getElem _ _ hlen]
    simp only [sample_noise, List.getElem_map, List.getElem_range]
    rw [List.getD_eq_getElem _ _ (by simpa using hj)]
    simp

/-- Witness for C1 at the concrete shape `[2, 3]`, range `(5, 20)` and a
constant entropy source. -/
theorem sample_noise_spec_witness :
    (sample_noise [2, 3] (5, 20) true ⟨fun _ lo _ => lo, fun _ _ => 1⟩).length = 2 :=
  (sample_noise_spec [2, 3] 5 20 true ⟨fun _ lo _ => lo, fun _ _ => 1⟩ (by decide)
    (fun _ => ⟨le_refl 5, show (5 : ℤ) ≤ 20 by decide⟩)).1

/-- C8 counterexample: the range `(-1, 255)` has high bound at most 255, the
draw `v = -1` lies in `[-1, 255]`, yet the pow_noise standard deviation
`(v/255)² = 1/65025` is strictly greater than `v/255 = -1/255`: the claim as
stated fails for ranges with a negative low bound. -/
theorem noiseSd_pow_cex :
    (-1 : ℤ) ≤ 255 ∧ ((-1 : ℤ) ≤ -1 ∧ (-1 : ℤ) ≤ 255) ∧
    ¬ noiseSd true (-1) ≤ noiseSd false (-1) := by
  refine ⟨by decide, ⟨le_refl _, by decide⟩, ?_⟩
  simp only [noiseSd]
  norm_num

/-- C8 (amended): for every drawn integer level `v` with `0 ≤ v ≤ 255` — in
particular for any 8-bit range `0 ≤ low ≤ high ≤ 255` — the standard deviation
used when pow_noise is true, `noiseSd true v = (v/255)²`, is at most the one
used when pow_noise is false, `noiseSd false v = v/255`, so enabling pow_noise
never increases a sample's noise standard deviation for the same draw. -/
theorem noiseSd_pow_le (v : ℤ) (h0 : 0 ≤ v) (h255 : v ≤ 255) :
    noiseSd true v ≤ noiseSd false v := by
  have hq0 : (0 : ℚ) ≤ (v : ℚ) / 255 := by positivity
  have hq1 : (v : ℚ) / 255 ≤ 1 := by
    rw [div_le_one (by norm_num)]
    exact_mod_cast h255
  simp only [noiseSd, if_true, Bool.false_eq_true, if_false]
  nlinarith [hq0, hq1]

/-- Witness for the amended C8 at the concrete draw `v = 128`. -/
theorem noiseSd_pow_le_witness : noiseSd true 128 ≤ noiseSd false 128 :=
  noiseSd_pow_le 128 (by decide) (by decide)

/-! ### Theorems for the Patch Sampler -/

/-- C2: under the resize shape contract, `sample_patch` returns, scale-major
and then row-major, the non-overlapping `ph × pw` blocks of each resized
image starting at offset (0,0) and stepping by `ph` and `pw` (the explicit
`scalePatches` form); the number of patches is `⌊ih/ph⌋·⌊iw/pw⌋` summed over
scales, so any remainder strip short of a full patch is discarded, and every
returned patch is exactly `ph × pw × c`. -/
theorem sample_patch_spec (resize : Image → ℕ → ℕ → Image) (image : Image)
    (scales : List ℚ) (ph pw : ℕ) (hres : resizeSpec resize)
    (hph : 1 ≤ ph) (hpw : 1 ≤ pw) :
    sample_patch resize image scales (ph, pw)
      = scales.flatMap (fun s => scalePatches resize image s ph pw) ∧
    (sample_patch resize image scales (ph, pw)).length
      = (scales.map (fun s => scaleCount image.h image.w s ph pw)).sum ∧
    ∀ p ∈ sample_patch resize image scales (ph, pw),
      p.length = ph ∧ ∀ row ∈ p, row.length = pw ∧ ∀ cell ∈ row, cell.length = image.c := by
  have heq := sample_patch_eq_scalePatches resize hres image scales ph pw hph hpw
  refine ⟨heq, ?_, ?_⟩
  · rw [heq, List.length_flatMap]
    congr 1
    exact List.map_congr_left (fun s _ => scalePatches_length resize image s ph pw)
  · intro p hp
    rw [heq] at hp
    obtain ⟨s, _, hps⟩ := List.mem_flatMap.mp hp
    obtain ⟨x, y, rfl⟩ := mem_scalePatches hps
    have hc := (hres image (⌊(image.w : ℚ) * s⌋).toNat (⌊(image.h : ℚ) * s⌋).toNat).2.2
    have hcs := crop_shape (resize image (⌊(image.w : ℚ) * s⌋).toNat
      (⌊(image.h : ℚ) * s⌋).toNat) x y ph pw
    exact ⟨hcs.1, fun row hrow => ⟨(hcs.2 row hrow).1,
      fun cell hcell => hc ▸ (hcs.2 row hrow).2 cell hcell⟩⟩

/-- Witness for C2: a 256×256×3 image at scale 1 with 64×64 patches yields
exactly 16 patches, and a 100×100×3 image yields exactly 1. -/
theorem sample_patch_spec_witness :
    (sample_patch nearestResize ⟨256, 256, 3, fun _ _ _ => 1⟩ [1] (64, 64)).length = 16 ∧
    (sample_patch nearestResize ⟨100, 100, 3, fun _ _ _ => 1⟩ [1] (64, 64)).length = 1 := by
  constructor
  · rw [(sample_patch_spec nearestResize ⟨256, 256, 3, fun _ _ _ => 1⟩ [1] 64 64
      nearestResize_spec (by decide) (by decide)).2.1]
    simp only [scaleCount, List.map_cons, List.map_nil, List.sum_cons, List.sum_nil]
    norm_num
    decide
  · rw [(sample_patch_spec nearestResize ⟨100, 100, 3, fun _ _ _ => 1⟩ [1] 64 64
      nearestResize_spec (by decide) (by decide)).2.1]
    simp only [scaleCount, List.map_cons, List.map_nil, List.sum_cons, List.sum_nil]
    norm_num
    decide

/-! ### Theorems for the dataset construction -/

/-- C7 (amended): during dataset construction a sampled training patch is
kept if and only if its mean intensity is at least the brightness threshold
0.05 — at the boundary, a patch whose mean is exactly 0.05 is kept — and the
filter applies only to the training set: a test patch is kept whenever its
file passes the shape check, with no brightness condition. -/
theorem islvrc_filter_spec (resize : Image → ℕ → ℕ → Image) (files : List NpArray)
    (scales : List ℚ) (psize : ℕ × ℕ) (p : Patch) :
    (p ∈ islvrc_train_patches resize files scales psize ↔
      ∃ a ∈ files, a.shape.length = 3 ∧
        p ∈ sample_patch resize (to_float a) scales psize ∧
        1 / 20 ≤ patchMean p) ∧
    (p ∈ islvrc_test_patches resize files ↔
      ∃ a ∈ files, a.shape.length = 3 ∧
        p ∈ sample_patch resize (to_float a) [1 / 2] (128, 128)) := by
  constructor
  · rw [islvrc_train_patches, List.mem_flatMap]
    constructor
    · rintro ⟨a, ha, hp⟩
      by_cases h3 : a.shape.length = 3
      · rw [if_pos h3, List.mem_filter] at hp
        exact ⟨a, ha, h3, hp.1, of_decide_eq_true hp.2⟩
      · rw [if_neg h3] at hp
        exact absurd hp (List.not_mem_nil _)
    · rintro ⟨a, ha, h3, hp, hm⟩
      refine ⟨a, ha, ?_⟩
      rw [if_pos h3, List.mem_filter]
      exact ⟨hp, decide_eq_true hm⟩
  · rw [islvrc_test_patches, List.mem_flatMap]
    constructor
    · rintro ⟨a, ha, hp⟩
      by_cases h3 : a.shape.length = 3
      · rw [if_pos h3] at hp
        exact ⟨a, ha, h3, hp⟩
      · rw [if_neg h3] at hp
        exact absurd hp (List.not_mem_nil _)
    · rintro ⟨a, ha, h3, hp⟩
      refine ⟨a, ha, ?_⟩
      rw [if_pos h3]
      exact hp

/-- C7 counterexample: a 2×2×3 file of constant raw intensity 51/4 yields a
patch whose mean intensity is exactly 0.05 = 1/20, and the code keeps it — it
is a member of the constructed training set — so "kept if and only if the
mean exceeds 0.05" fails at the boundary, where the code reads `>=`. -/
theorem islvrc_keep_boundary_cex :
    ∃ p ∈ islvrc_train_patches nearestResize
        [⟨[2, 2, 3], fun _ _ _ => 51 / 4⟩] [1] (2, 2),
      ¬ 1 / 20 < patchMean p := by
  have hmean : patchMean (crop (nearestResize (to_float ⟨[2, 2, 3], fun _ _ _ => 51 / 4⟩) 2 2)
      0 0 2 2) = 1 / 20 := by
    refine patchMean_const _ (1 / 20) ?_ 0 0 2 2 (by decide) (by decide) (by decide)
    intro i j k
    norm_num [nearestResize, to_float]
  refine ⟨crop (nearestResize (to_float ⟨[2, 2, 3], fun _ _ _ => 51 / 4⟩) 2 2) 0 0 2 2, ?_, ?_⟩
  · apply (islvrc_filter_spec nearestResize _ [1] (2, 2) _).1.mpr
    refine ⟨⟨[2, 2, 3], fun _ _ _ => 51 / 4⟩, List.mem_singleton.mpr rfl, by decide, ?_, ?_⟩
    · rw [sample_patch_2x2 _ (by decide) (by decide)]
      exact List.mem_singleton.mpr rfl
    · rw [hmean]
  · rw [hmean]
    norm_num

/-- C9 (amended): a decoded file is incorporated if and only if it is a
3-dimensional array — the check `len(image.shape) == 3` says nothing about
the channel count — and a file failing the check is silently skipped: it
contributes no patches, and construction continues over the remaining files
without raising. -/
theorem islvrc_ndim_spec (resize : Image → ℕ → ℕ → Image) (a : NpArray)
    (files : List NpArray) (scales : List ℚ) (psize : ℕ × ℕ) :
    islvrc_train_patches resize (a :: files) scales psize
      = (if a.shape.length = 3
         then (sample_patch resize (to_float a) scales psize).filter
                (fun s => decide ((1 / 20 : ℚ) ≤ patchMean s))
         else []) ++ islvrc_train_patches resize files scales psize ∧
    islvrc_test_patches resize (a :: files)
      = (if a.shape.length = 3
         then sample_patch resize (to_float a) [1 / 2] (128, 128)
         else []) ++ islvrc_test_patches resize files ∧
    (a.shape.length ≠ 3 →
      islvrc_train_patches resize (a :: files) scales psize
          = islvrc_train_patches resize files scales psize ∧
      islvrc_test_patches resize (a :: files) = islvrc_test_patches resize files) := by
  refine ⟨List.flatMap_cons .., List.flatMap_cons .., fun h3 => ?_⟩
  constructor
  · rw [islvrc_train_patches, List.flatMap_cons, if_neg h3, List.nil_append]
    rfl
  · rw [islvrc_test_patches, List.flatMap_cons, if_neg h3, List.nil_append]
    rfl

/-- C9 counterexample: a 2×2×4 array — 3-dimensional but with 4 channels, so
not a 3-channel image — is incorporated by the shape check
`len(image.shape) == 3`: the training set built from it alone is non-empty,
refuting "incorporated only if the file decodes to a 3-channel image". -/
theorem islvrc_rgba_cex :
    (⟨[2, 2, 4], fun _ _ _ => 51 / 4⟩ : NpArray).shape.getD 2 0 = 4 ∧
    islvrc_train_patches nearestResize [⟨[2, 2, 4], fun _ _ _ => 51 / 4⟩] [1] (2, 2) ≠ [] := by
  have hmean : patchMean (crop (nearestResize (to_float ⟨[2, 2, 4], fun _ _ _ => 51 / 4⟩) 2 2)
      0 0 2 2) = 1 / 20 := by
    refine patchMean_const _ (1 / 20) ?_ 0 0 2 2 (by decide) (by decide) (by decide)
    intro i j k
    norm_num [nearestResize, to_float]
  refine ⟨by decide, ?_⟩
  have hmem : crop (nearestResize (to_float ⟨[2, 2, 4], fun _ _ _ => 51 / 4⟩) 2 2) 0 0 2 2
      ∈ islvrc_train_patches nearestResize [⟨[2, 2, 4], fun _ _ _ => 51 / 4⟩] [1] (2, 2) := by
    apply (islvrc_filter_spec nearestResize _ [1] (2, 2) _).1.mpr
    refine ⟨⟨[2, 2, 4], fun _ _ _ => 51 / 4⟩, List.mem_singleton.mpr rfl, by decide, ?_, ?_⟩
    · rw [sample_patch_2x2 _ (by decide) (by decide)]
      exact List.mem_singleton.mpr rfl
    · rw [hmean]
  intro hnil
  rw [hnil] at hmem
  exact List.not_mem_nil _ hmem

/-! ### Theorems for the Averaging Evaluator -/

/-- C4: when the solver preserves the batch shape, the Averaging Evaluator's
reconstruction is the element-wise average of the `n_avg` solver outputs on
the same input; and with `n_avg = 1` the evaluator reduces exactly to a
single solver call — its reported mean-squared-error, structural similarity,
peak signal-to-noise ratio and returned reconstruction are those of call 0's
output. -/
theorem denoiser_avg_spec (t : Tensor) (solver : ℕ → Tensor → Tensor)
    (ssim psnrF : Tensor → Tensor → ℚ) (n_avg : ℕ)
    (hshape : ∀ k, sameShape (solver k t) t) (_hn : 1 ≤ n_avg) :
    (∀ i j : ℕ,
      (((denoiser_avg t solver ssim psnrF n_avg).2.2.2.getD i []).getD j 0)
        = ((List.range n_avg).map (fun k => ((solver k t).getD i []).getD j 0)).sum
            / (n_avg : ℚ)) ∧
    denoiser_avg t solver ssim psnrF 1
      = (MSE t (solver 0 t) / (t.length : ℚ), ssim (solver 0 t) t,
         psnrF t (solver 0 t), solver 0 t) := by
  constructor
  · intro i j
    show ((tSmul (1 / (n_avg : ℚ)) _).getD i []).getD j 0 = _
    rw [tSmul_getD, (foldl_tAdd_spec t (fun k => solver k t) hshape n_avg).2 i j]
    ring
  · have hone : (List.range 1).foldl (fun acc k => tAdd acc (solver k t)) (zeros_like t)
        = solver 0 t := by
      rw [show (1 : ℕ) = 0 + 1 from rfl, List.range_succ, List.range_zero,
        List.nil_append, List.foldl_cons, List.foldl_nil]
      exact tAdd_zeros t (solver 0 t) (hshape 0)
    show (_, _, _, _) = _
    rw [hone]
    have hsm : tSmul (1 / ((1 : ℕ) : ℚ)) (solver 0 t) = solver 0 t := by
      norm_num [tSmul_one]
    rw [hsm]

/-- Witness for C4 at the concrete batch `[[1, 1]]`, a constant solver and
constant metrics, with `n_avg = 1`. -/
theorem denoiser_avg_spec_witness :
    denoiser_avg [[1, 1]] (fun _ _ => [[0, 0]]) (fun _ _ => 0) (fun _ _ => 0) 1
      = (MSE [[1, 1]] [[0, 0]] / (([[1, 1]] : Tensor).length : ℚ), 0, 0, [[0, 0]]) :=
  (denoiser_avg_spec [[1, 1]] (fun _ _ => [[0, 0]]) (fun _ _ => 0) (fun _ _ => 0) 1
    (fun _ => rfl) (le_refl 1)).2

/-- C6 counterexample: for the single-sample batch `[[1, 1]]` and a solver
returning `[[0, 0]]`, the reported mean-squared-error is `2` — the summed
squared error divided by the one sample — while the mean of the squared
element-wise differences between clean batch and reconstruction
(`criterion`) is `1`: the reported value is not that mean. -/
theorem denoiser_avg_mse_cex :
    (denoiser_avg [[1, 1]] (fun _ _ => [[0, 0]]) (fun _ _ => 0) (fun _ _ => 0) 1).1 = 2 ∧
    criterion [[1, 1]]
      (denoiser_avg [[1, 1]] (fun _ _ => [[0, 0]]) (fun _ _ => 0) (fun _ _ => 0) 1).2.2.2 = 1 ∧
    (denoiser_avg [[1, 1]] (fun _ _ => [[0, 0]]) (fun _ _ => 0) (fun _ _ => 0) 1).1
      ≠ criterion [[1, 1]]
          (denoiser_avg [[1, 1]] (fun _ _ => [[0, 0]]) (fun _ _ => 0) (fun _ _ => 0) 1).2.2.2 := by
  have hrec : (denoiser_avg [[1, 1]] (fun _ _ => [[0, 0]]) (fun _ _ => 0) (fun _ _ => 0) 1).2.2.2
      = [[0, 0]] := by
    show tSmul (1 / ((1 : ℕ) : ℚ))
      ((List.range 1).foldl (fun acc _ => tAdd acc [[0, 0]]) (zeros_like [[1, 1]])) = _
    rw [show (1 : ℕ) = 0 + 1 from rfl, List.range_succ, List.range_zero,
      List.nil_append, List.foldl_cons, List.foldl_nil,
      tAdd_zeros [[1, 1]] [[0, 0]] rfl]
    norm_num [tSmul_one]
  have hmse : (denoiser_avg [[1, 1]] (fun _ _ => [[0, 0]]) (fun _ _ => 0) (fun _ _ => 0) 1).1
      = 2 := by
    show MSE [[1, 1]]
        (denoiser_avg [[1, 1]] (fun _ _ => [[0, 0]]) (fun _ _ => 0) (fun _ _ => 0) 1).2.2.2
        / (([[1, 1]] : Tensor).length : ℚ) = 2
    rw [hrec]
    norm_num [MSE]
  refine ⟨hmse, ?_, ?_⟩
  · rw [hrec]
    norm_num [criterion, MSE, numel]
  · rw [hmse, hrec]
    norm_num [criterion, MSE, numel]

/-- C6 (amended): the value the Averaging Evaluator reports as
mean-squared-error equals the sum-reduced squared error divided by the
number of samples only; for a batch of `N ≥ 1` samples with `m ≥ 1` elements
each, it equals `m` times the mean of the squared element-wise differences
between the clean batch and the averaged reconstruction. -/
theorem denoiser_avg_mse_spec (t : Tensor) (solver : ℕ → Tensor → Tensor)
    (ssim psnrF : Tensor → Tensor → ℚ) (n_avg m : ℕ)
    (hN : 1 ≤ t.length) (hm : 1 ≤ m) (hrect : ∀ r ∈ t, r.length = m) :
    (denoiser_avg t solver ssim psnrF n_avg).1
      = MSE t (denoiser_avg t solver ssim psnrF n_avg).2.2.2 / (t.length : ℚ) ∧
    (denoiser_avg t solver ssim psnrF n_avg).1
      = (m : ℚ) * criterion t (denoiser_avg t solver ssim psnrF n_avg).2.2.2 := by
  refine ⟨rfl, ?_⟩
  have hnum : numel t = t.length * m := by
    simp only [numel]
    rw [List.map_congr_left hrect, sum_map_const]
  have hN0 : ((t.length : ℕ) : ℚ) ≠ 0 := by
    exact_mod_cast Nat.one_le_iff_ne_zero.mp hN
  have hm0 : ((m : ℕ) : ℚ) ≠ 0 := by
    exact_mod_cast Nat.one_le_iff_ne_zero.mp hm
  have h1 : (denoiser_avg t solver ssim psnrF n_avg).1
      = MSE t (denoiser_avg t solver ssim psnrF n_avg).2.2.2 / (t.length : ℚ) := rfl
  rw [h1, criterion, hnum]
  push_cast
  field_simp
  ring

/-- Witness for the amended C6 at the concrete batch `[[1, 1]]` with one
sample of two elements. -/
theorem denoiser_avg_mse_spec_witness :
    (denoiser_avg [[1, 1]] (fun _ _ => [[0, 0]]) (fun _ _ => 0) (fun _ _ => 0) 5).1
      = (2 : ℚ) * criterion [[1, 1]]
          (denoiser_avg [[1, 1]] (fun _ _ => [[0, 0]]) (fun _ _ => 0) (fun _ _ => 0) 5).2.2.2 :=
  (denoiser_avg_mse_spec [[1, 1]] (fun _ _ => [[0, 0]]) (fun _ _ => 0) (fun _ _ => 0) 5 2
    (by decide) (by decide) (by intro r hr; rw [List.mem_singleton.mp hr]; rfl)).2

/-! ### Theorems for the two trainers -/

lemma lnFold_count_aux {S : Type} (recon : S → Tensor → Tensor)
    (optStep : S → Tensor → Tensor → S) (lossF : Tensor → Tensor → ℚ)
    (pv : List ℚ → List ℚ) :
    ∀ (batches : List Tensor) (init : S × List ℚ × ℚ × ℕ),
      (batches.foldl
        (fun acc b0 =>
          let b := b0.map pv
          let rc := recon acc.1 b
          let lv := lossF b rc / (b.length : ℚ)
          (optStep acc.1 b rc, acc.2.1 ++ [lv], acc.2.2.1 + lv, acc.2.2.2 + 1))
        init).2.2.2
        = init.2.2.2 + batches.length := by
  intro batches
  induction batches with
  | nil => intro init; simp
  | cons b bs ih =>
    intro init
    rw [List.foldl_cons, ih]
    simp only [List.length_cons]
    omega

lemma lnFold_count {S : Type} (recon : S → Tensor → Tensor)
    (optStep : S → Tensor → Tensor → S) (lossF : Tensor → Tensor → ℚ)
    (pv : List ℚ → List ℚ) (batches : List Tensor) (s0 : S) :
    (lnFold recon optStep lossF pv batches s0).2.2.2 = batches.length := by
  rw [lnFold]
  simpa using lnFold_count_aux recon optStep lossF pv batches (s0, [], 0, 0)

lemma trainFold_count_aux {M : Type} (be : Backend M) (args : Args) (ent : ℕ → Entropy) :
    ∀ (batches : List Tensor) (init : M × ℚ × ℕ),
      (batches.foldl
        (fun acc b =>
          let noise := sample_noise [b.length, (b.headD []).length]
            args.train_noise args.pow_noise (ent acc.2.2)
          let noise_input := tAdd b noise
          let loss := criterion (be.forward acc.1 noise_input) noise
          (be.step acc.1 noise_input noise, acc.2.1 + loss, acc.2.2 + 1))
        init).2.2
        = init.2.2 + batches.length := by
  intro batches
  induction batches with
  | nil => intro init; simp
  | cons b bs ih =>
    intro init
    rw [List.foldl_cons, ih]
    simp only [List.length_cons]
    omega

lemma trainFold_count {M : Type} (be : Backend M) (args : Args) (ent : ℕ → Entropy)
    (batches : List Tensor) (m0 : M) :
    (trainFold be args ent batches m0).2.2 = batches.length := by
  rw [trainFold]
  simpa using trainFold_count_aux be args ent batches (m0, 0, 0)

/-- C5: in any epoch processing `B ≥ 1` batches, the Linear-Inverse Trainer
computes its recorded epoch average by dividing the accumulated loss by
`float(count)` where `count = B − 1` is the post-loop value of the enumerate
variable, while the Denoising Trainer divides by `count + 1 = B`; the two
divisors differ for every `B` — an inconsistent off-by-one. -/
theorem avg_loss_divisor_mismatch {M S : Type} (be : Backend M) (args : Args)
    (entF : ℕ → ℕ → Entropy) (batchesF : ℕ → List Tensor) (tg : ℕ → Tensor)
    (ts : Tensor) (recs : List EpochRec) (m0 : M) (e : ℕ)
    (recon : S → Tensor → Tensor) (optStep : S → Tensor → Tensor → S)
    (lossF : Tensor → Tensor → ℚ) (pv : List ℚ → List ℚ)
    (batches : List Tensor) (s0 : S) (B : ℕ) (hB : 1 ≤ B)
    (hlb : batches.length = B) (hle : (batchesF e).length = B) :
    (lnEpoch recon optStep lossF pv batches s0).2.2
      = pydiv (lnFold recon optStep lossF pv batches s0).2.2.1 ((B : ℚ) - 1) ∧
    (simpleEpoch be args batchesF entF tg ts (m0, recs) e).2
      = recs ++ [⟨(trainFold be args (entF e) (batchesF e) m0).2.1 / (B : ℚ),
          (evalPhase be args ts (tg e)
            (be.sched (trainFold be args (entF e) (batchesF e) m0).1)).1,
          (evalPhase be args ts (tg e)
            (be.sched (trainFold be args (entF e) (batchesF e) m0).1)).2⟩] ∧
    ((B : ℚ) - 1) ≠ (B : ℚ) := by
  have hcount := lnFold_count recon optStep lossF pv batches s0
  rw [hlb] at hcount
  refine ⟨?_, ?_, ?_⟩
  · show (if (lnFold recon optStep lossF pv batches s0).2.2.2 = 0 then Except.error "NameError"
      else pydiv (lnFold recon optStep lossF pv batches s0).2.2.1
        (((lnFold recon optStep lossF pv batches s0).2.2.2 : ℚ) - 1)) = _
    rw [hcount, if_neg (by omega)]
  · show (recs ++ [⟨(trainFold be args (entF e) (batchesF e) m0).2.1
        / ((trainFold be args (entF e) (batchesF e) m0).2.2 : ℚ), _, _⟩]) = _
    rw [trainFold_count be args (entF e) (batchesF e) m0, hle]
  · intro h
    exact one_ne_zero (sub_eq_self.mp h)

/-- Witness for C5 at a single concrete one-batch epoch for both trainers. -/
theorem avg_loss_divisor_mismatch_witness :
    (lnEpoch (fun _ _ => [[0]]) (fun s _ _ => s) (fun _ _ => 0) (fun r => r) [[[1]]] ()).2.2
      = pydiv (lnFold (fun _ _ => [[0]]) (fun s _ _ => s) (fun _ _ => 0) (fun r => r)
          [[[1]]] ()).2.2.1 (((1 : ℕ) : ℚ) - 1) :=
  (avg_loss_divisor_mismatch ⟨fun _ x => x, fun m _ _ => m, fun m => m⟩
    ⟨(0, 0), 128, 1, true⟩ (fun _ _ => ⟨fun _ lo _ => lo, fun _ _ => 0⟩)
    (fun _ => [[[1]]]) (fun _ => [[0]]) [[0]] [] () 0
    (fun _ _ => [[0]]) (fun s _ _ => s) (fun _ _ => 0) (fun r => r)
    [[[1]]] () 1 (le_refl 1) rfl rfl).1

lemma foldl_bind_frozen {α β : Type} (l : List β) (f : β → α → Except String α)
    (msg : String) :
    l.foldl (fun acc e => acc.bind (f e)) (Except.error msg) = Except.error msg := by
  induction l with
  | nil => rfl
  | cons b bs ih => rw [List.foldl_cons]; exact ih

/-- C10: when every epoch's loader yields exactly one batch (a training set
of at most `batch_size` samples) and at least one epoch runs, the
Linear-Inverse Trainer's epoch-average computation divides by
`float(count) = 0.0` and `ln_optim` raises `ZeroDivisionError` instead of
completing the epoch and returning the solver. -/
theorem ln_optim_single_batch_raises {S : Type} (recon : S → Tensor → Tensor)
    (optStep : S → Tensor → Tensor → S) (lossF : Tensor → Tensor → ℚ)
    (pv : List ℚ → List ℚ) (schedStep : S → S)
    (solverEval : S → ℕ → Tensor → Tensor) (ssim psnrF : Tensor → Tensor → ℚ)
    (test : Tensor) (batches : ℕ → List Tensor)
    (hone : ∀ e, (batches e).length = 1) (n_epoch : ℕ) (hne : 1 ≤ n_epoch) (s0 : S) :
    ln_optim recon optStep lossF pv schedStep solverEval ssim psnrF test batches n_epoch s0
      = Except.error "ZeroDivisionError" := by
  obtain ⟨k, rfl⟩ : ∃ k, n_epoch = k + 1 := ⟨n_epoch - 1, by omega⟩
  rw [ln_optim, List.range_succ_eq_map, List.foldl_cons]
  have hcount := lnFold_count recon optStep lossF pv (batches 0) s0
  rw [hone 0] at hcount
  have hep : (lnEpoch recon optStep lossF pv (batches 0) s0).2.2
      = Except.error "ZeroDivisionError" := by
    show (if (lnFold recon optStep lossF pv (batches 0) s0).2.2.2 = 0
      then Except.error "NameError"
      else pydiv (lnFold recon optStep lossF pv (batches 0) s0).2.2.1
        (((lnFold recon optStep lossF pv (batches 0) s0).2.2.2 : ℚ) - 1)) = _
    rw [hcount, if_neg one_ne_zero]
    norm_num [pydiv]
  have hstep : ((Except.ok (s0, ([] : List ℚ)) : Except String (S × List ℚ)).bind
      (fun st =>
        let ep := lnEpoch recon optStep lossF pv (batches 0) st.1
        ep.2.2.bind (fun avg =>
          let s1 := schedStep ep.1
          let _metrics := denoiser_avg test (solverEval s1) ssim psnrF 5
          Except.ok (s1, st.2 ++ [avg]))))
      = (Except.error "ZeroDivisionError" : Except String (S × List ℚ)) := by
    show (lnEpoch recon optStep lossF pv (batches 0) s0).2.2.bind _ = _
    rw [hep]
    rfl
  rw [hstep]
  exact foldl_bind_frozen _ _ _

/-- Witness for C10: a concrete trivial solver over one epoch with a single
one-sample batch raises the division error. -/
theorem ln_optim_single_batch_raises_witness :
    ln_optim (fun _ _ => [[0]]) (fun s _ _ => s) (fun _ _ => 0) (fun r => r)
      (fun s => s) (fun _ _ _ => [[0]]) (fun _ _ => 0) (fun _ _ => 0) [[0]]
      (fun _ => [[[1]]]) 1 ()
      = Except.error "ZeroDivisionError" :=
  ln_optim_single_batch_raises (fun _ _ => [[0]]) (fun s _ _ => s) (fun _ _ => 0)
    (fun r => r) (fun s => s) (fun _ _ _ => [[0]]) (fun _ _ => 0) (fun _ _ => 0)
    [[0]] (fun _ => [[[1]]]) (fun _ => rfl) 1 (le_refl 1) ()

lemma getD_map_range {α : Type} (f : ℕ → α) (n e : ℕ) (he : e < n) (d : α) :
    ((List.range n).map f).getD e d = f e := by
  rw [List.getD_eq_getElem _ _ (by simpa using he)]
  simp

lemma simpleRun_succ {M : Type} (be : Backend M) (args : Args)
    (batches : ℕ → List Tensor) (ent : ℕ → ℕ → Entropy) (tg : ℕ → Tensor)
    (ts : Tensor) (m0 : M) (n : ℕ) :
    simpleRun be args batches ent tg ts m0 (n + 1)
      = simpleEpoch be args batches ent tg ts
          (simpleRun be args batches ent tg ts m0 n) n := by
  rw [simpleRun, simpleRun, List.range_succ, List.foldl_append, List.foldl_cons,
    List.foldl_nil]

lemma simpleRun_records {M : Type} (be : Backend M) (args : Args)
    (batches : ℕ → List Tensor) (ent : ℕ → ℕ → Entropy) (tg : ℕ → Tensor)
    (ts : Tensor) (m0 : M) (n : ℕ) :
    (simpleRun be args batches ent tg ts m0 n).2
      = (List.range n).map (fun e =>
          epochRecAt be args batches ent tg ts
            (simpleRun be args batches ent tg ts m0 e).1 e) := by
  induction n with
  | zero => rfl
  | succ n ih =>
    rw [simpleRun_succ, List.range_succ, List.map_append]
    show (simpleRun be args batches ent tg ts m0 n).2 ++ _ = _
    rw [ih]
    rfl

lemma simpleRun_model {M : Type} (be : Backend M) (args : Args)
    (batches : ℕ → List Tensor) (ent : ℕ → ℕ → Entropy) (tg : ℕ → Tensor)
    (ts : Tensor) (m0 : M) (n : ℕ) :
    (simpleRun be args batches ent tg ts m0 (n + 1)).1
      = be.sched (trainFold be args (ent n) (batches n)
          (simpleRun be args batches ent tg ts m0 n).1).1 := by
  rw [simpleRun_succ]
  rfl

/-- C3: in every epoch `e` of `train_simple` the evaluation phase builds one
noisy test batch at the fixed level `test_noise / 255`, the reported test-in
value equals the mean-squared-error criterion between the clean test set and
that noisy batch, the reported test-out value equals the criterion between
the clean test set and the denoised batch `noisy − residual` computed from
the model trained through epoch `e` (the evaluation mutates nothing: the
next epoch resumes from the post-scheduler state), and after `n_epoch`
epochs the trainer returns the ordered length-`n_epoch` sequences of
per-epoch training losses and test losses — the e-th test loss being that
epoch's test-out. -/
theorem train_simple_spec {M : Type} (be : Backend M) (args : Args)
    (batches : ℕ → List Tensor) (ent : ℕ → ℕ → Entropy) (tg : ℕ → Tensor)
    (ts : Tensor) (m0 : M) :
    (train_simple be args batches ent tg ts m0).1.length = args.n_epoch ∧
    (train_simple be args batches ent tg ts m0).2.length = args.n_epoch ∧
    ∀ e, e < args.n_epoch →
      ((simpleRun be args batches ent tg ts m0 args.n_epoch).2.getD e ⟨0, 0, 0⟩).testIn
        = criterion ts (tAdd ts (tSmul ((args.test_noise : ℚ) / 255) (tg e))) ∧
      ((simpleRun be args batches ent tg ts m0 args.n_epoch).2.getD e ⟨0, 0, 0⟩).testOut
        = criterion ts (tSub (tAdd ts (tSmul ((args.test_noise : ℚ) / 255) (tg e)))
            (be.forward
              (be.sched (trainFold be args (ent e) (batches e)
                (simpleRun be args batches ent tg ts m0 e).1).1)
              (tAdd ts (tSmul ((args.test_noise : ℚ) / 255) (tg e))))) ∧
      (train_simple be args batches ent tg ts m0).2.getD e 0
        = ((simpleRun be args batches ent tg ts m0 args.n_epoch).2.getD e ⟨0, 0, 0⟩).testOut ∧
      (train_simple be args batches ent tg ts m0).1.getD e 0
        = ((simpleRun be args batches ent tg ts m0 args.n_epoch).2.getD e ⟨0, 0, 0⟩).avg ∧
      (simpleRun be args batches ent tg ts m0 (e + 1)).1
        = be.sched (trainFold be args (ent e) (batches e)
            (simpleRun be args batches ent tg ts m0 e).1).1 := by
  have hrec := simpleRun_records be args batches ent tg ts m0 args.n_epoch
  have hlen : (simpleRun be args batches ent tg ts m0 args.n_epoch).2.length
      = args.n_epoch := by
    rw [hrec, List.length_map, List.length_range]
  refine ⟨?_, ?_, ?_⟩
  · show ((simpleRun be args batches ent tg ts m0 args.n_epoch).2.map EpochRec.avg).length = _
    rw [List.length_map, hlen]
  · show ((simpleRun be args batches ent tg ts m0 args.n_epoch).2.map EpochRec.testOut).length = _
    rw [List.length_map, hlen]
  · intro e he
    have hgetD : (simpleRun be args batches ent tg ts m0 args.n_epoch).2.getD e ⟨0, 0, 0⟩
        = epochRecAt be args batches ent tg ts
            (simpleRun be args batches ent tg ts m0 e).1 e := by
      rw [hrec, getD_map_range _ _ _ he]
    refine ⟨by rw [hgetD]; rfl, by rw [hgetD]; rfl, ?_, ?_,
      simpleRun_model be args batches ent tg ts m0 e⟩
    · show ((simpleRun be args batches ent tg ts m0 args.n_epoch).2.map
        EpochRec.testOut).getD e 0 = _
      rw [hgetD, hrec, List.map_map, getD_map_range _ _ _ he]
      rfl
    · show ((simpleRun be args batches ent tg ts m0 args.n_epoch).2.map
        EpochRec.avg).getD e 0 = _
      rw [hgetD, hrec, List.map_map, getD_map_range _ _ _ he]
      rfl

/-- Witness for C3: a one-epoch run with an identity model on a singleton
test set; the recorded test-in is the criterion against the noisy batch. -/
theorem train_simple_spec_witness :
    (train_simple ⟨fun _ x => x, fun m _ _ => m, fun m => m⟩ ⟨(0, 0), 128, 1, true⟩
        (fun _ => []) (fun _ _ => ⟨fun _ lo _ => lo, fun _ _ => 0⟩) (fun _ => [[0]])
        [[1]] ()).2.length = 1 ∧
    ((simpleRun ⟨fun _ x => x, fun m _ _ => m, fun m => m⟩ ⟨(0, 0), 128, 1, true⟩
        (fun _ => []) (fun _ _ => ⟨fun _ lo _ => lo, fun _ _ => 0⟩) (fun _ => [[0]])
        [[1]] () 1).2.getD 0 ⟨0, 0, 0⟩).testIn
      = criterion [[1]] (tAdd [[1]] (tSmul (((128 : ℤ) : ℚ) / 255) [[0]])) :=
  ⟨(train_simple_spec ⟨fun _ x => x, fun m _ _ => m, fun m => m⟩ ⟨(0, 0), 128, 1, true⟩
      (fun _ => []) (fun _ _ => ⟨fun _ lo _ => lo, fun _ _ => 0⟩) (fun _ => [[0]])
      [[1]] ()).2.1,
   ((train_simple_spec ⟨fun _ x => x, fun m _ _ => m, fun m => m⟩ ⟨(0, 0), 128, 1, true⟩
      (fun _ => []) (fun _ _ => ⟨fun _ lo _ => lo, fun _ _ => 0⟩) (fun _ => [[0]])
      [[1]] ()).2.2 0 (by decide)).1⟩

end OptMeas
